import Mathlib

/- Verification of the reconciliation and aggregation core of src/app.py
   (Runwith cost analyzer).  The Python source is shallowly embedded below:
   pandas DataFrames become explicit row lists with column-presence flags,
   dictionary items become records of optional fields (a missing key raises
   KeyError, which we model as Except.error), and monetary values become
   rationals.  The third-party fuzzy scorer and chooser from thefuzz
   (fuzz.partial token sort scorer and process.extractOne) are not part of
   this repository; they are modelled from the specification where noted. -/

/-- One catalog row of products.csv, as produced by load_products.  Fields
mirror the columns the source reads: 商品名 (name), アクト商品CD (code),
アクト単価 (price), ［単位］ (unit). -/
structure Product where
  name : String
  code : String
  price : ℚ
  unit : String
deriving DecidableEq

/-- The loaded pandas DataFrame of products: whether the 商品名 column is
present (find_best_match checks this), plus the rows in load order. -/
structure MasterDF where
  hasNameCol : Bool
  rows : List Product
deriving DecidableEq

/-- One raw CSV row before price coercion.  rawPrice = some q models a cell
of the アクト単価 column that pd.to_numeric coerces to the number q;
rawPrice = none models a cell that fails numeric coercion (to_numeric with
coerce turns it into NaN, which fillna(0) then replaces by 0). -/
structure RawRow where
  name : String
  code : String
  rawPrice : Option ℚ
  unit : String
deriving DecidableEq

/-- The catalog resource as seen by load_products: the products.csv file can
be missing, unreadable under both attempted encodings (or otherwise raise
while being parsed), or parse into a table.  The Bool records whether the
parsed table has the 商品名 column; per the external-interface contract the
アクト単価 column is taken to be present in a parsed table. -/
inductive LoadSource where
  | missing : LoadSource
  | unreadable : LoadSource
  | table : Bool → List RawRow → LoadSource
deriving DecidableEq

/-- Embedding of load_products (src/app.py lines 40-61): a missing file or a
total parse failure yields an empty DataFrame (the except branches return
pd.DataFrame()); a parsed table has its アクト単価 column coerced to numeric
with failures becoming 0 (pd.to_numeric errors=coerce followed by fillna(0)),
every row being retained. -/
def load_products : LoadSource → MasterDF
  | .missing => ⟨false, []⟩
  | .unreadable => ⟨false, []⟩
  | .table hasName rows =>
      ⟨hasName, rows.map fun r => ⟨r.name, r.code, r.rawPrice.getD 0, r.unit⟩⟩

/-- Splitting of a character list on whitespace, dropping empty chunks; the
accumulator holds the characters of the current chunk in reverse. -/
def wsSplit : List Char → List Char → List (List Char)
  | [], acc => if acc.isEmpty then [] else [acc.reverse]
  | c :: cs, acc =>
      if c.isWhitespace then
        (if acc.isEmpty then wsSplit cs [] else acc.reverse :: wsSplit cs [])
      else wsSplit cs (c :: acc)

/-- Normalization used by the similarity scorer: lower-case, split on
whitespace, drop empty tokens.  Modelled from the spec (section 4.2): both
strings are lower-cased and whitespace-collapsed before comparison. -/
def tokenize (s : String) : List String :=
  (wsSplit (s.data.map Char.toLower) []).map String.mk

/-- Size of the multiset intersection of two token lists: each token of the
first list is matched against (and consumes) at most one equal token of the
second. -/
def multisetInterCount : List String → List String → Nat
  | [], _ => 0
  | x :: xs, ys =>
      if ys.contains x then multisetInterCount xs (ys.erase x) + 1
      else multisetInterCount xs ys

/-- Modelled from the spec: the similarity scorer (thefuzz fuzz.partial token
sort scorer, called at src/app.py line 69) is third-party library code not
present in the repository.  Per spec section 4.2 it is a pure function
String x String -> 0..100, insensitive to case, whitespace and token order,
degrading monotonically as token overlap decreases, and returning the
maximum 100 exactly when the token multisets match after normalization;
empty-after-normalization names are unmatchable and score low (section 3).
We realise this contract as a Dice coefficient over token multisets:
200 * |intersection| / (|tokens q| + |tokens c|), with the empty/empty case
scoring 0 (Nat division by zero). -/
def simScore (q c : String) : Nat :=
  200 * multisetInterCount (tokenize q) (tokenize c)
    / ((tokenize q).length + (tokenize c).length)

/-- Maximum score of the query against a list of choice strings (0 for an
empty list). -/
def bestScore (sc : String → String → Nat) (q : String) : List String → Nat
  | [] => 0
  | c :: cs => Nat.max (sc q c) (bestScore sc q cs)

/-- Modelled from the spec: process.extractOne of thefuzz (src/app.py line
69) is third-party library code not present in the repository.  Per spec
section 4.3 it returns the best-scoring choice together with its score, the
tie-break being the first choice encountered in catalog order among those
sharing the maximum score. -/
def extractOne (sc : String → String → Nat) (q : String)
    (choices : List String) : Option (String × Nat) :=
  if choices.isEmpty then none
  else
    (choices.find? fun c => sc q c == bestScore sc q choices).map
      fun c => (c, bestScore sc q choices)

/-- Embedding of find_best_match (src/app.py lines 63-74), parameterized by
the scorer sc.  An empty DataFrame or a missing 商品名 column returns
(None, 0); otherwise extractOne picks the best-scoring name, and if its
score reaches the threshold the first DataFrame row bearing that name
(master_df[master_df[商品名] == best_match_name].iloc[0]) is returned with
the score, else (None, 0). -/
def find_best_match (sc : String → String → Nat) (ingredient_name : String)
    (master_df : MasterDF) (threshold : Nat) : Option Product × Nat :=
  if master_df.rows.isEmpty || !master_df.hasNameCol then (none, 0)
  else
    match extractOne sc ingredient_name (master_df.rows.map fun r => r.name) with
    | none => (none, 0)
    | some (best_match_name, score) =>
        if threshold ≤ score then
          (master_df.rows.find? fun r => r.name == best_match_name, score)
        else (none, 0)

/-- Decidable equality for Except values, so that concrete runs of the
pipeline can be checked by decide. -/
instance {ε α : Type} [DecidableEq ε] [DecidableEq α] : DecidableEq (Except ε α) :=
  fun a b =>
    match a, b with
    | .error e, .error f =>
        if h : e = f then isTrue (by rw [h])
        else isFalse (by intro hc; cases hc; exact h rfl)
    | .error _, .ok _ => isFalse (by intro hc; cases hc)
    | .ok _, .error _ => isFalse (by intro hc; cases hc)
    | .ok x, .ok y =>
        if h : x = y then isTrue (by rw [h])
        else isFalse (by intro hc; cases hc; exact h rfl)

/-- One element of the materials list produced by the recognition service
(a JSON object).  Each field is optional: none models a missing key, whose
access item[key] raises KeyError in the source. -/
structure RawItem where
  name : Option String
  market_price : Option ℚ
  qty : Option ℚ
  unit : Option String
deriving DecidableEq

/-- One row of proposal_data (src/app.py lines 166-174).  Field order and
contents mirror the dict literal: 考えられる使用材料名, 推定市場単価,
自社商品No., 自社商品名, 自社単価, 数量, 単位. -/
structure ProposalRow where
  material_name : String
  market_price : ℚ
  product_no : String
  product_name : String
  own_price : ℚ
  qty : ℚ
  unit : String
deriving DecidableEq

/-- Embedding of one iteration of the reconciliation loop (src/app.py lines
163-174).  A missing name, market_price or qty key raises (KeyError caught
only by the whole-batch except at line 183); the unit key is only read when
the item is unmatched, because the conditional expression at line 173 short
circuits.  A matched item takes the catalog row's code, name, price and
unit; an unmatched one takes the sentinels "---", 該当なし/要確認, price 0
and the item's own unit. -/
def buildRow (sc : String → String → Nat) (master_df : MasterDF)
    (threshold : Nat) (item : RawItem) : Except Unit ProposalRow :=
  match item.name with
  | none => .error ()
  | some nm =>
    match item.market_price, item.qty with
    | some mp, some q =>
      match (find_best_match sc nm master_df threshold).1 with
      | some m => .ok ⟨nm, mp, m.code, m.name, m.price, q, m.unit⟩
      | none =>
        match item.unit with
        | some u => .ok ⟨nm, mp, "---", "該当なし/要確認", 0, q, u⟩
        | none => .error ()
    | _, _ => .error ()

/-- Embedding of the whole reconciliation loop over materials_list
(src/app.py lines 160-174): rows are appended in input order; the first
exception aborts the batch (the surrounding try/except at line 183 discards
proposal_data and reports an error). -/
def process_materials (sc : String → String → Nat) (master_df : MasterDF)
    (threshold : Nat) : List RawItem → Except Unit (List ProposalRow)
  | [] => .ok []
  | item :: rest =>
    match buildRow sc master_df threshold item with
    | .error e => .error e
    | .ok row =>
      match process_materials sc master_df threshold rest with
      | .error e => .error e
      | .ok rows => .ok (row :: rows)

/-- The 推定市場単価 column of the edited table. -/
def col_market (rows : List ProposalRow) : List ℚ :=
  rows.map fun r => r.market_price

/-- The 自社単価 column of the edited table. -/
def col_own (rows : List ProposalRow) : List ℚ :=
  rows.map fun r => r.own_price

/-- The 数量 column of the edited table. -/
def col_qty (rows : List ProposalRow) : List ℚ :=
  rows.map fun r => r.qty

/-- Embedding of m_total (src/app.py line 195): the elementwise product of
the market-price and quantity columns of the current (possibly edited)
table, summed. -/
def m_total (rows : List ProposalRow) : ℚ :=
  (List.zipWith (fun a b => a * b) (col_market rows) (col_qty rows)).sum

/-- Embedding of o_total (src/app.py line 196): the elementwise product of
the own-price and quantity columns of the current table, summed. -/
def o_total (rows : List ProposalRow) : ℚ :=
  (List.zipWith (fun a b => a * b) (col_own rows) (col_qty rows)).sum

/-- Embedding of diff (src/app.py line 197). -/
def diff (rows : List ProposalRow) : ℚ :=
  m_total rows - o_total rows

/-- Auxiliary: every choice's score is bounded by the best score. -/
theorem bestScore_le_of_mem (sc : String → String → Nat) (q : String) :
    ∀ (cs : List String), ∀ c ∈ cs, sc q c ≤ bestScore sc q cs := by
  intro cs
  induction cs with
  | nil => intro c hc; cases hc
  | cons x xs ih =>
    intro c hc
    rcases List.mem_cons.mp hc with h | h
    · subst h; exact Nat.le_max_left _ _
    · exact Nat.le_trans (ih c h) (Nat.le_max_right _ _)

/-- Auxiliary: the best score over a nonempty choice list is attained. -/
theorem bestScore_attained (sc : String → String → Nat) (q : String) :
    ∀ (cs : List String), cs ≠ [] → ∃ c ∈ cs, sc q c = bestScore sc q cs := by
  intro cs
  induction cs with
  | nil => intro h; exact absurd rfl h
  | cons x xs ih =>
    intro _
    by_cases hxs : xs = []
    · subst hxs
      exact ⟨x, List.mem_cons_self x [], by simp [bestScore]⟩
    · obtain ⟨c, hc, he⟩ := ih hxs
      rcases Nat.le_total (bestScore sc q xs) (sc q x) with h | h
      · exact ⟨x, List.mem_cons_self x xs, by simp [bestScore, Nat.max_eq_left h]⟩
      · exact ⟨c, List.mem_cons_of_mem x hc,
          by simp [bestScore, Nat.max_eq_right h, he]⟩

/-- Auxiliary: an upper bound on all scores bounds the best score. -/
theorem bestScore_le_bound (sc : String → String → Nat) (q : String) (m : Nat) :
    ∀ (cs : List String), (∀ c ∈ cs, sc q c ≤ m) → bestScore sc q cs ≤ m := by
  intro cs
  induction cs with
  | nil => intro _; exact Nat.zero_le m
  | cons x xs ih =>
    intro h
    exact Nat.max_le.mpr ⟨h x (List.mem_cons_self x xs),
      ih fun c hc => h c (List.mem_cons_of_mem x hc)⟩

/-- Auxiliary: find? succeeds when some member satisfies the predicate. -/
theorem find?_isSome_of_mem {α : Type} (p : α → Bool) :
    ∀ (l : List α) (a : α), a ∈ l → p a = true → ∃ b, l.find? p = some b := by
  intro l
  induction l with
  | nil => intro a ha; cases ha
  | cons x xs ih =>
    intro a ha hp
    cases hx : p x with
    | true => exact ⟨x, List.find?_cons_of_pos xs hx⟩
    | false =>
      rcases List.mem_cons.mp ha with h | h
      · subst h; rw [hp] at hx; cases hx
      · obtain ⟨b, hb⟩ := ih a h hp
        exact ⟨b, by rw [List.find?_cons_of_neg xs (by simp [hx]), hb]⟩

/-- Auxiliary: find? returns the element at the first index satisfying the
predicate. -/
theorem find?_first {α : Type} (p : α → Bool) :
    ∀ (l : List α) (i : Nat) (hi : i < l.length),
      p (l.get ⟨i, hi⟩) = true →
      (∀ j (hj : j < i), p (l.get ⟨j, Nat.lt_trans hj hi⟩) = false) →
      l.find? p = some (l.get ⟨i, hi⟩) := by
  intro l
  induction l with
  | nil => intro i hi; exact absurd hi (by simp)
  | cons x xs ih =>
    intro i hi hp hfirst
    cases i with
    | zero => exact List.find?_cons_of_pos xs hp
    | succ k =>
      have hx : p x = false := hfirst 0 (Nat.succ_pos k)
      rw [List.find?_cons_of_neg xs (by simp [hx])]
      exact ih k (Nat.lt_of_succ_lt_succ hi) hp
        (fun j hj => hfirst (j + 1) (Nat.succ_lt_succ hj))

/-- Auxiliary: indexing commutes with map. -/
theorem get_map {α β : Type} (f : α → β) :
    ∀ (l : List α) (i : Nat) (hi : i < l.length) (hm : i < (l.map f).length),
      (l.map f).get ⟨i, hm⟩ = f (l.get ⟨i, hi⟩) := by
  intro l
  induction l with
  | nil => intro i hi; exact absurd hi (by simp)
  | cons x xs ih =>
    intro i hi hm
    cases i with
    | zero => rfl
    | succ k =>
      exact ih k (Nat.lt_of_succ_lt_succ hi) (Nat.lt_of_succ_lt_succ (by simpa using hm))

/-- Auxiliary: sum of the elementwise product of two mapped columns equals
the rowwise sum of products. -/
theorem zip_mul_sum (f g : ProposalRow → ℚ) :
    ∀ (rows : List ProposalRow),
      (List.zipWith (fun a b => a * b) (rows.map f) (rows.map g)).sum
        = (rows.map fun r => f r * g r).sum := by
  intro rows
  induction rows with
  | nil => rfl
  | cons r rs ih => simp [ih]

/-- C3: for every sequence of reconciled rows in its current, possibly
reviewer-edited state, m_total is the sum over rows of market price times
quantity, o_total is the sum over rows of own price times quantity, and diff
is exactly m_total minus o_total, which can be negative. -/
theorem c3_aggregator_totals :
    (∀ rows : List ProposalRow,
        m_total rows = (rows.map fun r => r.market_price * r.qty).sum) ∧
    (∀ rows : List ProposalRow,
        o_total rows = (rows.map fun r => r.own_price * r.qty).sum) ∧
    (∀ rows : List ProposalRow, diff rows = m_total rows - o_total rows) ∧
    diff [⟨"item", 0, "---", "該当なし/要確認", 1, 1, "u"⟩] < 0 := by
  refine ⟨fun rows => zip_mul_sum _ _ rows, fun rows => zip_mul_sum _ _ rows,
    fun rows => rfl, ?_⟩
  norm_num [diff, m_total, o_total, col_market, col_own, col_qty]

/-- C6: an extracted item that resolves to an absent match produces a row
with effective price 0, the sentinel product identifier "---" (and the
sentinel product name), and the item's own declared unit. -/
theorem c6_unmatched_row_sentinels (sc : String → String → Nat)
    (master_df : MasterDF) (t : Nat) (nm : String) (mp q : ℚ) (u : String)
    (h : (find_best_match sc nm master_df t).1 = none) :
    buildRow sc master_df t ⟨some nm, some mp, some q, some u⟩ =
      .ok ⟨nm, mp, "---", "該当なし/要確認", 0, q, u⟩ := by
  simp [buildRow, h]

/-- C6 witness: a wholly unrelated item against the single-entry catalog is
unmatched and gets the sentinel row. -/
theorem c6_witness :
    buildRow simScore ⟨true, [⟨"pasta", "A-101", 2000, "bag"⟩]⟩ 60
        ⟨some "caviar", some 9000, some 1, some "box"⟩ =
      .ok ⟨"caviar", 9000, "---", "該当なし/要確認", 0, 1, "box"⟩ :=
  c6_unmatched_row_sentinels simScore ⟨true, [⟨"pasta", "A-101", 2000, "bag"⟩]⟩
    60 "caviar" 9000 1 "box" (by decide)

/-- C9: catalog load retains every row of a parsed table; the price column
is the numeric coercion of the raw cells, a cell failing coercion (rawPrice
none) becoming 0 via Option.getD, and names are preserved, so no row is
dropped because of a bad price. -/
theorem c9_price_coercion_retains_rows (hasName : Bool) (rows : List RawRow) :
    (load_products (.table hasName rows)).rows.length = rows.length ∧
    (load_products (.table hasName rows)).rows.map (fun r => r.price)
      = rows.map (fun r => r.rawPrice.getD 0) ∧
    (load_products (.table hasName rows)).rows.map (fun r => r.name)
      = rows.map (fun r => r.name) := by
  refine ⟨by simp [load_products], ?_, ?_⟩ <;>
    simp [load_products, List.map_map, Function.comp]

/-- Auxiliary: the multiset intersection of a token list with itself has the
full length. -/
theorem multisetInterCount_self : ∀ (l : List String),
    multisetInterCount l l = l.length := by
  intro l
  induction l with
  | nil => rfl
  | cons x xs ih =>
    have hc : (x :: xs).contains x = true := by simp
    simp [multisetInterCount, hc, List.erase_cons_head, ih]

/-- Auxiliary: the multiset intersection is at most the first list's length. -/
theorem multisetInterCount_le_left : ∀ (xs ys : List String),
    multisetInterCount xs ys ≤ xs.length := by
  intro xs
  induction xs with
  | nil => intro ys; exact Nat.le_refl 0
  | cons x xs ih =>
    intro ys
    by_cases h : ys.contains x = true
    · simp only [multisetInterCount, h, if_true, List.length_cons]
      exact Nat.succ_le_succ (ih (ys.erase x))
    · simp only [multisetInterCount, h, if_false, List.length_cons]
      exact Nat.le_succ_of_le (ih ys)

/-- Auxiliary: the multiset intersection is at most the second list's
length. -/
theorem multisetInterCount_le_right : ∀ (xs ys : List String),
    multisetInterCount xs ys ≤ ys.length := by
  intro xs
  induction xs with
  | nil => intro ys; exact Nat.zero_le _
  | cons x xs ih =>
    intro ys
    by_cases h : ys.contains x = true
    · have hmem : x ∈ ys := List.mem_of_elem_eq_true h
      have hpos : 0 < ys.length := List.length_pos.mpr (by rintro rfl; cases hmem)
      have hlen : (ys.erase x).length = ys.length - 1 := List.length_erase_of_mem hmem
      simp only [multisetInterCount, h, if_true]
      have := ih (ys.erase x)
      omega
    · simp only [multisetInterCount, h, if_false]
      exact Nat.le_trans (ih ys) (Nat.le_refl _)

/-- Auxiliary: the spec-modelled scorer is bounded by 100. -/
theorem simScore_le_100 (q c : String) : simScore q c ≤ 100 := by
  unfold simScore
  rcases Nat.eq_zero_or_pos ((tokenize q).length + (tokenize c).length) with h | h
  · rw [h]
    simp
  · have h1 := multisetInterCount_le_left (tokenize q) (tokenize c)
    have h2 := multisetInterCount_le_right (tokenize q) (tokenize c)
    have hmul : 200 * multisetInterCount (tokenize q) (tokenize c)
        ≤ 100 * ((tokenize q).length + (tokenize c).length) := by omega
    calc 200 * multisetInterCount (tokenize q) (tokenize c)
          / ((tokenize q).length + (tokenize c).length)
        ≤ 100 * ((tokenize q).length + (tokenize c).length)
          / ((tokenize q).length + (tokenize c).length) :=
          Nat.div_le_div_right hmul
      _ = 100 := Nat.mul_div_left 100 h

/-- Auxiliary: a name with a nonempty normalized token list scores exactly
100 against itself. -/
theorem simScore_self (nm : String) (hne : tokenize nm ≠ []) :
    simScore nm nm = 100 := by
  unfold simScore
  rw [multisetInterCount_self]
  have hL : 0 < (tokenize nm).length := List.length_pos.mpr hne
  have h2 : (tokenize nm).length + (tokenize nm).length = 2 * (tokenize nm).length := by omega
  rw [h2]
  have h3 : 200 * (tokenize nm).length = 100 * (2 * (tokenize nm).length) := by ring
  rw [h3]
  exact Nat.mul_div_left 100 (by omega)

/-- Auxiliary: on a nonempty catalog with the name column present and the
threshold not above the best score, the resolver accepts: it returns some
catalog row achieving the best score, together with that score. -/
theorem fbm_accepted (sc : String → String → Nat) (q : String)
    (rows : List Product) (t : Nat) (hrows : rows ≠ [])
    (ht : t ≤ bestScore sc q (rows.map fun r => r.name)) :
    ∃ e, find_best_match sc q ⟨true, rows⟩ t
        = (some e, bestScore sc q (rows.map fun r => r.name))
      ∧ e ∈ rows ∧ sc q e.name = bestScore sc q (rows.map fun r => r.name) := by
  have hne : (rows.map fun r => r.name) ≠ [] := by
    intro h
    exact hrows (List.map_eq_nil_iff.mp h)
  obtain ⟨c, hc, hcb⟩ := bestScore_attained sc q _ hne
  obtain ⟨bn, hbn⟩ := find?_isSome_of_mem
    (fun c => sc q c == bestScore sc q (rows.map fun r => r.name)) _ c hc
    (by simp [hcb])
  have hpbn : sc q bn = bestScore sc q (rows.map fun r => r.name) := by
    have := List.find?_some hbn
    simpa using this
  obtain ⟨r0, hr0, hr0n⟩ := List.mem_map.mp (List.mem_of_find?_eq_some hbn)
  obtain ⟨e, he⟩ := find?_isSome_of_mem (fun r => r.name == bn) rows r0 hr0
    (by simp [hr0n])
  have hen : e.name = bn := by
    have := List.find?_some he
    simpa using this
  refine ⟨e, ?_, List.mem_of_find?_eq_some he, by rw [hen, hpbn]⟩
  have hrE : rows.isEmpty = false := List.isEmpty_eq_false.mpr hrows
  have hcE : (rows.map fun r => r.name).isEmpty = false :=
    List.isEmpty_eq_false.mpr hne
  simp [find_best_match, extractOne, hrE, hcE, hbn, ht, he]

/-- Auxiliary: on a nonempty catalog with the name column present and the
threshold above the best score, the resolver rejects with (none, 0). -/
theorem fbm_rejected (sc : String → String → Nat) (q : String)
    (rows : List Product) (t : Nat) (hrows : rows ≠ [])
    (ht : ¬ t ≤ bestScore sc q (rows.map fun r => r.name)) :
    find_best_match sc q ⟨true, rows⟩ t = (none, 0) := by
  have hne : (rows.map fun r => r.name) ≠ [] := by
    intro h
    exact hrows (List.map_eq_nil_iff.mp h)
  obtain ⟨c, hc, hcb⟩ := bestScore_attained sc q _ hne
  obtain ⟨bn, hbn⟩ := find?_isSome_of_mem
    (fun c => sc q c == bestScore sc q (rows.map fun r => r.name)) _ c hc
    (by simp [hcb])
  have hrE : rows.isEmpty = false := List.isEmpty_eq_false.mpr hrows
  have hcE : (rows.map fun r => r.name).isEmpty = false :=
    List.isEmpty_eq_false.mpr hne
  simp [find_best_match, extractOne, hrE, hcE, hbn, ht]

/-- C1: over a nonempty catalog with the name column present and a
caller-supplied threshold in [0,100], the resolver accepts an entry exactly
when the maximum score over the catalog reaches the threshold, and any
returned entry is a catalog row achieving that maximum score. -/
theorem c1_resolver_accepts_iff_max_reaches_threshold
    (sc : String → String → Nat) (q : String) (rows : List Product) (t : Nat)
    (hrows : rows ≠ []) (ht : t ≤ 100) :
    ((find_best_match sc q ⟨true, rows⟩ t).1 ≠ none ↔
      t ≤ bestScore sc q (rows.map fun r => r.name)) ∧
    (∀ e, (find_best_match sc q ⟨true, rows⟩ t).1 = some e →
      e ∈ rows ∧ sc q e.name = bestScore sc q (rows.map fun r => r.name)) := by
  by_cases hacc : t ≤ bestScore sc q (rows.map fun r => r.name)
  · obtain ⟨e, heq, hmem, hsc⟩ := fbm_accepted sc q rows t hrows hacc
    rw [heq]
    constructor
    · simp [hacc]
    · intro e2 he2
      have he3 : e = e2 := by simpa using he2
      subst he3
      exact ⟨hmem, hsc⟩
  · rw [fbm_rejected sc q rows t hrows hacc]
    constructor
    · simp [hacc]
    · intro e2 he2
      exact absurd he2 (by simp)

/-- C1 witness: a singleton catalog containing the query itself is accepted
at threshold 60. -/
theorem c1_witness :
    (find_best_match simScore "pasta"
      ⟨true, [⟨"pasta", "A-101", 2000, "bag"⟩]⟩ 60).1 ≠ none :=
  (c1_resolver_accepts_iff_max_reaches_threshold simScore "pasta"
      [⟨"pasta", "A-101", 2000, "bag"⟩] 60 (by decide) (by decide)).1.mpr
    (by decide)

/-- C10: whenever the resolver does not accept a match (empty catalog,
missing name column, or best score below the threshold) the score it
returns is exactly 0, so a below-threshold maximum is never observable in
the result. -/
theorem c10_rejected_score_zero (sc : String → String → Nat) (q : String)
    (master_df : MasterDF) (t : Nat)
    (h : (find_best_match sc q master_df t).1 = none) :
    (find_best_match sc q master_df t).2 = 0 := by
  by_cases hg : (master_df.rows.isEmpty || !master_df.hasNameCol) = true
  · simp [find_best_match, hg]
  · have hg2 : (master_df.rows.isEmpty || !master_df.hasNameCol) = false := by
      simpa using hg
    cases hx : extractOne sc q (master_df.rows.map fun r => r.name) with
    | none => simp [find_best_match, hg2, hx]
    | some p =>
      obtain ⟨bn, b⟩ := p
      by_cases hb : t ≤ b
      · exfalso
        by_cases hcE : (master_df.rows.map fun r => r.name).isEmpty = true
        · simp [extractOne, hcE] at hx
        · have hcE2 : (master_df.rows.map fun r => r.name).isEmpty = false := by
            simpa using hcE
          have hx2 := hx
          rw [extractOne, hcE2] at hx2
          simp only [Bool.false_eq_true, if_false] at hx2
          obtain ⟨a, ha, hab⟩ := Option.map_eq_some'.mp hx2
          have ha2 : a = bn := congrArg Prod.fst hab
          subst ha2
          obtain ⟨r0, hr0, hr0n⟩ := List.mem_map.mp (List.mem_of_find?_eq_some ha)
          obtain ⟨e, he⟩ := find?_isSome_of_mem (fun r => r.name == a)
            master_df.rows r0 hr0 (by simp [hr0n])
          simp [find_best_match, hg2, hx, hb, he] at h
      · simp [find_best_match, hg2, hx, hb]

/-- C10 witness: a catalog whose best score against the query is positive
(40) but below the threshold 70 yields score 0. -/
theorem c10_witness :
    bestScore simScore "a b" ((⟨true, [⟨"a", "C1", 10, "u"⟩]⟩ :
        MasterDF).rows.map fun r => r.name) = 66 ∧
    (find_best_match simScore "a b" ⟨true, [⟨"a", "C1", 10, "u"⟩]⟩ 70).2 = 0 :=
  ⟨by decide, c10_rejected_score_zero simScore "a b"
    ⟨true, [⟨"a", "C1", 10, "u"⟩]⟩ 70 (by decide)⟩

/-- Auxiliary: acceptance by the resolver is antitone in the threshold. -/
theorem fbm_accept_mono (sc : String → String → Nat) (q : String)
    (master_df : MasterDF) (t1 t2 : Nat) (h12 : t1 ≤ t2)
    (h : ((find_best_match sc q master_df t2).1).isSome = true) :
    ((find_best_match sc q master_df t1).1).isSome = true := by
  by_cases hg : (master_df.rows.isEmpty || !master_df.hasNameCol) = true
  · simp [find_best_match, hg] at h
  · have hg2 : (master_df.rows.isEmpty || !master_df.hasNameCol) = false := by
      simpa using hg
    cases hx : extractOne sc q (master_df.rows.map fun r => r.name) with
    | none => simp [find_best_match, hg2, hx] at h
    | some p =>
      obtain ⟨bn, b⟩ := p
      by_cases hb2 : t2 ≤ b
      · have hb1 : t1 ≤ b := Nat.le_trans h12 hb2
        simp only [find_best_match, hg2, Bool.false_eq_true, if_false, hx,
          hb2, if_true] at h
        simp only [find_best_match, hg2, Bool.false_eq_true, if_false, hx,
          hb1, if_true]
        exact h
      · simp [find_best_match, hg2, hx, hb2] at h

/-- C8: for a fixed scorer, catalog and pair of thresholds t1 < t2, every
item of a batch whose match is accepted at t2 is also accepted at t1: the
accepted set at the stricter threshold is a subset of the accepted set at
the looser one. -/
theorem c8_threshold_monotonicity (sc : String → String → Nat)
    (master_df : MasterDF) (t1 t2 : Nat) (h12 : t1 < t2)
    (queries : List String) :
    ∀ q ∈ queries.filter
        (fun n => ((find_best_match sc n master_df t2).1).isSome),
      q ∈ queries.filter
        (fun n => ((find_best_match sc n master_df t1).1).isSome) := by
  intro q hq
  rw [List.mem_filter] at hq ⊢
  exact ⟨hq.1, fbm_accept_mono sc q master_df t1 t2 (Nat.le_of_lt h12) hq.2⟩

/-- C8 witness: the query accepted at the stricter threshold 60 is also in
the accepted set at threshold 10. -/
theorem c8_witness :
    "pasta" ∈ ["pasta"].filter
      (fun n => ((find_best_match simScore n
        ⟨true, [⟨"pasta", "A-101", 2000, "bag"⟩]⟩ 10).1).isSome) :=
  c8_threshold_monotonicity simScore ⟨true, [⟨"pasta", "A-101", 2000, "bag"⟩]⟩
    10 60 (by decide) ["pasta"] "pasta" (by decide)

/-- C5: when the i-th catalog row is, in load order, the first one achieving
the maximum score (all earlier rows scoring strictly below the maximum) and
the threshold is met, the resolver deterministically returns exactly that
row. -/
theorem c5_tie_break_first_in_catalog_order (sc : String → String → Nat)
    (q : String) (rows : List Product) (t : Nat) (i : Nat)
    (hi : i < rows.length)
    (hmax : sc q (rows.get ⟨i, hi⟩).name
      = bestScore sc q (rows.map fun r => r.name))
    (hfirst : ∀ j (hj : j < i),
      sc q ((rows.get ⟨j, Nat.lt_trans hj hi⟩).name)
        < bestScore sc q (rows.map fun r => r.name))
    (ht : t ≤ bestScore sc q (rows.map fun r => r.name)) :
    (find_best_match sc q ⟨true, rows⟩ t).1 = some (rows.get ⟨i, hi⟩) := by
  have hrows : rows ≠ [] := by
    intro h
    subst h
    exact absurd hi (by simp)
  have him : i < (rows.map fun r => r.name).length := by simpa using hi
  have hfind1 : (rows.map fun r => r.name).find?
      (fun c => sc q c == bestScore sc q (rows.map fun r => r.name))
      = some ((rows.map fun r => r.name).get ⟨i, him⟩) := by
    apply find?_first
    · rw [get_map (fun r => r.name) rows i hi him]
      exact beq_iff_eq.mpr hmax
    · intro j hj
      rw [get_map (fun r => r.name) rows j (Nat.lt_trans hj hi)
        (Nat.lt_trans hj him)]
      exact beq_eq_false_iff_ne.mpr (Nat.ne_of_lt (hfirst j hj))
  have hname : (rows.map fun r => r.name).get ⟨i, him⟩
      = (rows.get ⟨i, hi⟩).name := get_map (fun r => r.name) rows i hi him
  rw [hname] at hfind1
  have hfind2 : rows.find? (fun r => r.name == (rows.get ⟨i, hi⟩).name)
      = some (rows.get ⟨i, hi⟩) := by
    apply find?_first
    · simp
    · intro j hj
      apply beq_eq_false_iff_ne.mpr
      intro hEq
      have hlt := hfirst j hj
      rw [hEq, hmax] at hlt
      exact absurd hlt (lt_irrefl _)
  have hrE : rows.isEmpty = false := List.isEmpty_eq_false.mpr hrows
  have hcE : (rows.map fun r => r.name).isEmpty = false :=
    List.isEmpty_eq_false.mpr (by
      intro h
      exact hrows (List.map_eq_nil_iff.mp h))
  simp only [List.get_eq_getElem] at hfind1 hfind2
  simp [find_best_match, extractOne, hrE, hcE, hfind1, ht, hfind2]

/-- C5 witness: two catalog entries tie at the maximum score 66 for the
query; the resolver picks the one appearing first in load order. -/
theorem c5_witness :
    (find_best_match simScore "a b"
      ⟨true, [⟨"a", "C1", 10, "u"⟩, ⟨"b", "C2", 20, "u"⟩]⟩ 50).1
      = some ⟨"a", "C1", 10, "u"⟩ :=
  c5_tie_break_first_in_catalog_order simScore "a b"
    [⟨"a", "C1", 10, "u"⟩, ⟨"b", "C2", 20, "u"⟩] 50 0 (by decide) (by decide)
    (fun j hj => absurd hj (Nat.not_lt_zero j)) (by decide)

/-- C7: the spec-modelled scorer gives a name with nonempty normalized
token list the score 100 against itself, the maximum attainable anywhere;
hence when the catalog contains the exact query string the best score over
the catalog equals the self-match score and an accepting resolver reports
exactly that score. -/
theorem c7_self_match_top_ranked (nm : String) (rows : List Product)
    (t : Nat) (hmem : nm ∈ rows.map fun r => r.name)
    (hne : tokenize nm ≠ []) (ht : t ≤ 100) :
    simScore nm nm = 100 ∧
    (∀ a b, simScore a b ≤ 100) ∧
    bestScore simScore nm (rows.map fun r => r.name) = simScore nm nm ∧
    (find_best_match simScore nm ⟨true, rows⟩ t).2 = simScore nm nm := by
  have hself := simScore_self nm hne
  have hb : bestScore simScore nm (rows.map fun r => r.name) = 100 := by
    apply Nat.le_antisymm
    · exact bestScore_le_bound simScore nm 100 _ (fun c _ => simScore_le_100 nm c)
    · rw [← hself]
      exact bestScore_le_of_mem simScore nm _ nm hmem
  have hrows : rows ≠ [] := by
    intro h
    subst h
    simp at hmem
  obtain ⟨e, heq, _, _⟩ := fbm_accepted simScore nm rows t hrows
    (by rw [hb]; exact ht)
  refine ⟨hself, fun a b => simScore_le_100 a b, by rw [hb, hself], ?_⟩
  rw [heq]
  simp [hb, hself]

/-- C7 witness: the single-entry catalog containing the query itself is
matched with the self-score 100. -/
theorem c7_witness :
    (find_best_match simScore "pasta"
      ⟨true, [⟨"pasta", "A-101", 2000, "bag"⟩]⟩ 60).2
      = simScore "pasta" "pasta" :=
  (c7_self_match_top_ranked "pasta" [⟨"pasta", "A-101", 2000, "bag"⟩] 60
    (by decide) (by decide) (by decide)).2.2.2

/-- Auxiliary: the row constructor raises exactly when a required key is
missing from the item: name, market_price, qty, or unit for an item whose
name resolves to an absent match (the unit key of a matched item is never
read, because the conditional at src/app.py line 173 short circuits). -/
theorem buildRow_error_iff (sc : String → String → Nat)
    (master_df : MasterDF) (t : Nat) (item : RawItem) :
    buildRow sc master_df t item = .error () ↔
      item.name = none ∨ item.market_price = none ∨ item.qty = none ∨
        (item.unit = none ∧ ∃ nm, item.name = some nm ∧
          (find_best_match sc nm master_df t).1 = none) := by
  obtain ⟨n, m, q, u⟩ := item
  cases n with
  | none => simp [buildRow]
  | some nm =>
    cases m with
    | none => simp [buildRow]
    | some mp =>
      cases q with
      | none => simp [buildRow]
      | some qv =>
        cases hfb : (find_best_match sc nm master_df t).1 with
        | some mm => simp [buildRow, hfb]
        | none =>
          cases u with
          | none => simp [buildRow, hfb]
          | some uv => simp [buildRow, hfb]

/-- Auxiliary: one raising item anywhere in the batch makes the whole loop
raise. -/
theorem process_error_of_mem (sc : String → String → Nat)
    (master_df : MasterDF) (t : Nat) :
    ∀ (items : List RawItem) (i : RawItem), i ∈ items →
      buildRow sc master_df t i = .error () →
      process_materials sc master_df t items = .error () := by
  intro items
  induction items with
  | nil => intro i hi; cases hi
  | cons x xs ih =>
    intro i hi he
    rcases List.mem_cons.mp hi with h | h
    · subst h
      simp [process_materials, he]
    · cases hx : buildRow sc master_df t x with
      | error e => simp [process_materials, hx]
      | ok row => simp [process_materials, hx, ih i h he]

/-- Auxiliary: a batch none of whose items raises is processed without
exclusion: one output row per input item. -/
theorem process_ok_of_no_error (sc : String → String → Nat)
    (master_df : MasterDF) (t : Nat) :
    ∀ (items : List RawItem),
      (∀ i ∈ items, buildRow sc master_df t i ≠ .error ()) →
      ∃ rows, process_materials sc master_df t items = .ok rows ∧
        rows.length = items.length := by
  intro items
  induction items with
  | nil => intro _; exact ⟨[], rfl, rfl⟩
  | cons x xs ih =>
    intro hall
    obtain ⟨r, hr⟩ : ∃ r, buildRow sc master_df t x = .ok r := by
      cases hx : buildRow sc master_df t x with
      | ok r => exact ⟨r, rfl⟩
      | error e =>
        cases e
        exact absurd hx (hall x (List.mem_cons_self x xs))
    obtain ⟨rs, hrs, hlen⟩ :=
      ih (fun i hi => hall i (List.mem_cons_of_mem x hi))
    exact ⟨r :: rs, by simp [process_materials, hr, hrs], by simp [hlen]⟩

/-- C2 counterexample: against the one-entry catalog at threshold 60, a
batch holding one well-formed item and one item missing its name key fails
as a whole (the loop raises and the surrounding except discards all rows)
instead of excluding the malformed item and keeping the good row; the good
item alone does produce its row; and an item with an empty name and
negative price and quantity is not excluded but processed unchanged. -/
theorem c2_malformed_item_fails_whole_batch :
    process_materials simScore ⟨true, [⟨"pasta", "A-101", 2000, "bag"⟩]⟩ 60
        [⟨some "pasta", some 2500, some 2, some "bag"⟩,
         ⟨none, some 100, some 1, some "kg"⟩] = .error () ∧
    process_materials simScore ⟨true, [⟨"pasta", "A-101", 2000, "bag"⟩]⟩ 60
        [⟨some "pasta", some 2500, some 2, some "bag"⟩] =
      .ok [⟨"pasta", 2500, "A-101", "pasta", 2000, 2, "bag"⟩] ∧
    process_materials simScore ⟨true, [⟨"pasta", "A-101", 2000, "bag"⟩]⟩ 60
        [⟨some "", some (-5), some (-2), some "kg"⟩] =
      .ok [⟨"", -5, "---", "該当なし/要確認", 0, -2, "kg"⟩] :=
  ⟨by decide, by decide, by decide⟩

/-- C2 amended: an extracted item missing a required key — name,
market_price, qty, or unit for an item resolving to an absent match —
causes the whole batch to fail with an error (no individual rejection, no
exclusion count); conversely, when no item is missing a required key, no
item is excluded at all: the output has one row per input item, with no
validation of empty names or of negative quantities and prices. -/
theorem c2_amended_batch_failure_and_no_exclusion
    (sc : String → String → Nat) (master_df : MasterDF) (t : Nat)
    (items : List RawItem) :
    ((∃ i ∈ items, i.name = none ∨ i.market_price = none ∨ i.qty = none ∨
        (i.unit = none ∧ ∃ nm, i.name = some nm ∧
          (find_best_match sc nm master_df t).1 = none)) →
      process_materials sc master_df t items = .error ()) ∧
    ((∀ i ∈ items, ¬(i.name = none ∨ i.market_price = none ∨ i.qty = none ∨
        (i.unit = none ∧ ∃ nm, i.name = some nm ∧
          (find_best_match sc nm master_df t).1 = none))) →
      ∃ rows, process_materials sc master_df t items = .ok rows ∧
        rows.length = items.length) := by
  constructor
  · rintro ⟨i, hi, hcond⟩
    exact process_error_of_mem sc master_df t items i hi
      ((buildRow_error_iff sc master_df t i).mpr hcond)
  · intro hall
    exact process_ok_of_no_error sc master_df t items
      (fun i hi he => hall i hi ((buildRow_error_iff sc master_df t i).mp he))

/-- C2 amended witness: a singleton batch whose item is missing only the
qty key fails whole; a singleton batch with empty name and negative
numbers (all keys present) yields exactly one row. -/
theorem c2_amended_witness :
    process_materials simScore ⟨true, []⟩ 60
        [⟨some "x", some 100, none, some "kg"⟩] = .error () ∧
    ∃ rows, process_materials simScore ⟨true, []⟩ 60
        [⟨some "", some (-5), some (-2), some "kg"⟩] = .ok rows ∧
      rows.length = 1 :=
  ⟨(c2_amended_batch_failure_and_no_exclusion simScore ⟨true, []⟩ 60
      [⟨some "x", some 100, none, some "kg"⟩]).1
      ⟨⟨some "x", some 100, none, some "kg"⟩, by decide,
        Or.inr (Or.inr (Or.inl rfl))⟩,
   (c2_amended_batch_failure_and_no_exclusion simScore ⟨true, []⟩ 60
      [⟨some "", some (-5), some (-2), some "kg"⟩]).2
      (by
        intro i hi
        have hi2 : i = ⟨some "", some (-5), some (-2), some "kg"⟩ := by
          simpa using hi
        subst hi2
        rintro (h | h | h | ⟨h, _⟩) <;> cases h)⟩

/-- Auxiliary: against the empty DataFrame every successfully built row is
unmatched, with own price 0 and the sentinel product number. -/
theorem buildRow_empty_df (sc : String → String → Nat) (t : Nat)
    (item : RawItem) (r : ProposalRow)
    (h : buildRow sc ⟨false, []⟩ t item = .ok r) :
    r.own_price = 0 ∧ r.product_no = "---" := by
  obtain ⟨n, m, q, u⟩ := item
  cases n with
  | none => simp [buildRow] at h
  | some nm =>
    cases m with
    | none => simp [buildRow] at h
    | some mp =>
      cases q with
      | none => simp [buildRow] at h
      | some qv =>
        cases u with
        | none =>
          have hfb : (find_best_match sc nm ⟨false, []⟩ t).1 = none := rfl
          simp [buildRow, hfb] at h
        | some uv =>
          have hfb : (find_best_match sc nm ⟨false, []⟩ t).1 = none := rfl
          simp [buildRow, hfb] at h
          rw [← h]
          exact ⟨rfl, rfl⟩

/-- Auxiliary: every row output by the loop over the empty DataFrame has
own price 0 and the sentinel product number. -/
theorem process_empty_df_rows (sc : String → String → Nat) (t : Nat) :
    ∀ (items : List RawItem) (rows : List ProposalRow),
      process_materials sc ⟨false, []⟩ t items = .ok rows →
      ∀ r ∈ rows, r.own_price = 0 ∧ r.product_no = "---" := by
  intro items
  induction items with
  | nil =>
    intro rows h r hr
    have : rows = [] := by
      simpa [process_materials] using h.symm
    subst this
    cases hr
  | cons x xs ih =>
    intro rows h r hr
    cases hx : buildRow sc ⟨false, []⟩ t x with
    | error e => simp [process_materials, hx] at h
    | ok row =>
      cases hrest : process_materials sc ⟨false, []⟩ t xs with
      | error e => simp [process_materials, hx, hrest] at h
      | ok rest =>
        have : row :: rest = rows := by
          simpa [process_materials, hx, hrest] using h
        subst this
        rcases List.mem_cons.mp hr with hr1 | hr2
        · subst hr1
          exact buildRow_empty_df sc t x r hx
        · exact ih rest hrest r hr2

/-- Auxiliary: rows whose own price is all 0 have own total 0. -/
theorem o_total_zero : ∀ (rows : List ProposalRow),
    (∀ r ∈ rows, r.own_price = 0) → o_total rows = 0 := by
  intro rows
  induction rows with
  | nil => intro _; rfl
  | cons r rs ih =>
    intro h
    have hr : r.own_price = 0 := h r (List.mem_cons_self r rs)
    have hrest := ih (fun x hx => h x (List.mem_cons_of_mem r hx))
    simp [o_total, col_own, col_qty] at hrest ⊢
    rw [hr, hrest]
    ring

/-- C4: a missing or wholly unparseable catalog resource loads as the empty
catalog instead of failing; against it the resolver returns the absent
match (None, 0) for every query and threshold, every produced row has own
price 0, so the own total is 0 and the savings equal the market total. -/
theorem c4_empty_catalog_degradation (sc : String → String → Nat) (t : Nat)
    (items : List RawItem) (rows : List ProposalRow)
    (h : process_materials sc (load_products .missing) t items = .ok rows) :
    load_products .missing = ⟨false, []⟩ ∧
    load_products .unreadable = ⟨false, []⟩ ∧
    (∀ q th, find_best_match sc q (load_products .missing) th = (none, 0)) ∧
    (∀ r ∈ rows, r.own_price = 0) ∧
    o_total rows = 0 ∧
    diff rows = m_total rows := by
  have hown : ∀ r ∈ rows, r.own_price = 0 :=
    fun r hr => (process_empty_df_rows sc t items rows h r hr).1
  have ho : o_total rows = 0 := o_total_zero rows hown
  refine ⟨rfl, rfl, fun q th => rfl, hown, ho, ?_⟩
  show m_total rows - o_total rows = m_total rows
  rw [ho, sub_zero]

/-- C4 witness: a one-item batch against the missing-resource catalog
produces an unmatched row with own total 0 and savings equal to the market
total. -/
theorem c4_witness :
    o_total [⟨"x", 10, "---", "該当なし/要確認", 0, 1, "u"⟩] = 0 ∧
    diff [⟨"x", 10, "---", "該当なし/要確認", 0, 1, "u"⟩]
      = m_total [⟨"x", 10, "---", "該当なし/要確認", 0, 1, "u"⟩] :=
  ⟨(c4_empty_catalog_degradation simScore 60
      [⟨some "x", some 10, some 1, some "u"⟩]
      [⟨"x", 10, "---", "該当なし/要確認", 0, 1, "u"⟩] (by decide)).2.2.2.2.1,
   (c4_empty_catalog_degradation simScore 60
      [⟨some "x", some 10, some 1, some "u"⟩]
      [⟨"x", 10, "---", "該当なし/要確認", 0, 1, "u"⟩] (by decide)).2.2.2.2.2⟩
